import Mathlib

/-!
Verification of the maybrain repository (mayBrainTools.py and
maybrain/plotting/histograms.py) against its natural-language specification.

The Python code is shallowly embedded: floating point values are modelled as
rationals, NaN as `none` in `Option ℚ`, and calls that can raise a Python
exception return `Except PyErr _`.  Each definition carries a reference to the
source lines it embeds.
-/

instance {ε α : Type} [DecidableEq ε] [DecidableEq α] : DecidableEq (Except ε α)
  | .ok a, .ok b =>
    if h : a = b then .isTrue (by rw [h]) else .isFalse (by simp [h])
  | .ok _, .error _ => .isFalse (by simp)
  | .error _, .ok _ => .isFalse (by simp)
  | .error e, .error f =>
    if h : e = f then .isTrue (by rw [h]) else .isFalse (by simp [h])

/-- Python exception kinds relevant to the embedded code. -/
inductive PyErr where
  | indexError
  | attributeError
  | nameError
  | typeError
  | zeroDivisionError
  deriving Repr, DecidableEq

/-- One adjacency-matrix cell: `none` models NaN (missing measurement). -/
abbrev Entry := Option ℚ

/-- A dense matrix, row major, as loaded by `getAdjFile`. -/
abbrev Mat := List (List Entry)

/-- The networkx graph held in `brainObj.G`: node ids plus edges carrying an
optional `weight` attribute (`none` when the attribute is absent). -/
structure BrainGraph where
  nodes : List Nat
  edges : List (Nat × Nat × Option ℚ)
  deriving Repr, DecidableEq

/-- State of a `brainObj` (mayBrainTools.py lines 49-78).  `directedAttr`
models Python's dynamic attribute `self.directed`: `__init__` (line 57) only
assigns `self._directed`, and no statement anywhere in the repository ever
assigns `self.directed`, so the attribute is absent (`none`) on every brain
the repository can build; reading it raises AttributeError. -/
structure Brain where
  G : BrainGraph
  uDirected : Bool                -- self._directed (line 57)
  adjMat : Option Mat             -- self.adjMat (line 61), None until loaded
  edgeInds : List (Nat × Nat)     -- self.edgeInds (line 63)
  threshold : Option ℚ            -- self.threshold (line 64), none models NaN
  edgePC : Option ℚ               -- self.edgePC, set only by applyThreshold case 1
  directedAttr : Option Bool      -- the never-assigned attribute self.directed
  skull : Bool                    -- whether self.skull is not None (lines 71-73)
  iso : Bool                      -- whether self.iso is not None (lines 75-77)
  deriving Repr, DecidableEq

/-- Embeds `brainObj.__init__` (lines 49-78): empty undirected graph, no matrix,
threshold 0, no volumes, and in particular no `directed` attribute. -/
def brainInit : Brain :=
  { G := { nodes := [], edges := [] }
    uDirected := false
    adjMat := none
    edgeInds := []
    threshold := some 0
    edgePC := none
    directedAttr := none
    skull := false
    iso := false }

/-- numpy's ascending sort order on floats: finite values ascending, NaN
(`none`) sorted to the end. -/
def optLe : Entry → Entry → Bool
  | some x, some y => decide (x ≤ y)
  | some _, none => true
  | none, some _ => false
  | none, none => true

/-- The order `optLe` as a relation, for use with `List.insertionSort`. -/
def optLeP (a b : Entry) : Prop := optLe a b = true

instance : DecidableRel optLeP := fun a b => inferInstanceAs (Decidable (_ = true))

instance : IsTotal Entry optLeP where
  total a b := by
    cases a <;> cases b <;> simp [optLeP, optLe] <;> exact le_total _ _

instance : IsTrans Entry optLeP where
  trans a b c := by
    cases a <;> cases b <;> cases c <;> simp [optLeP, optLe]
    exact fun h h' => le_trans h h'

instance : IsAntisymm Entry optLeP where
  antisymm a b := by
    cases a <;> cases b <;> simp [optLeP, optLe]
    exact fun h h' => le_antisymm h h'

/-- Embeds `weights.sort()` (line 318): numpy in-place ascending sort, NaNs last.
Insertion sort produces the same list: sorted permutations agree under a total
antisymmetric order. -/
def npSort (l : List Entry) : List Entry := l.insertionSort optLeP

/-- Helper for the NaN-stripping loop, operating on the reversed list so that
`weights[-1]` is the head.  An empty list means `weights[-1]` raises
IndexError. -/
def stripAux : List Entry → Except PyErr (List Entry)
  | [] => .error .indexError
  | none :: t => stripAux t
  | some v :: t => .ok (some v :: t)

/-- Embeds `while (str(weights[-1]) == 'nan'): weights = weights[:-1]`
(lines 319-320): drop trailing NaNs; IndexError if the array runs empty. -/
def stripTrailing (l : List Entry) : Except PyErr (List Entry) :=
  (stripAux l.reverse).map List.reverse

/-- Python negative indexing `ws[-k]` for `0 ≤ k ≤ len ws`: `ws[-0]` is
`ws[0]`, otherwise the element at position `len - k`. -/
def pyGetNeg (ws : List Entry) (k : Nat) : Entry :=
  if k = 0 then ws.getD 0 none else ws.getD (ws.length - k) none

/-- Python 2 `round`: half away from zero. -/
def pyRound (x : ℚ) : Int :=
  if x ≥ 0 then ⌊x + 1/2⌋ else -⌊-x + 1/2⌋

/-- The comparison `matrix[i,j] >= cutoff` under IEEE semantics: any
comparison involving NaN is false. -/
def geOpt : Entry → Entry → Bool
  | some x, some y => decide (x ≥ y)
  | _, _ => false

/-- Cell access `M[i][j]`, `none` when out of range (only used in statements;
the embedded code never indexes out of range here). -/
def entry (M : Mat) (i j : Nat) : Entry := (M.getD i []).getD j none

/-- Lines 340-352: `boolMat = self.adjMat >= self.threshold`, zero the
diagonal, then `np.where` in row-major order gives the realized pairs. -/
def computeEdgeInds (M : Mat) (t : Entry) : List (Nat × Nat) :=
  (List.range M.length).flatMap fun i =>
    ((List.range (M.getD i []).length).filter
      (fun j => i ≠ j && geOpt (entry M i j) t)).map (fun j => (i, j))

/-- Effective edge count, stage 1 of `applyThreshold` (lines 283-308).
Returns the pair (edgeNum, the value `self.edgePC` holds afterwards).
Case 1 (`edgePC` truthy): `int(round(edgePC/100 * n * (n-1) * c))` with
`c = 0.5` when `self._directed` and `c = 1` otherwise (lines 288-297); with
no matrix loaded, `shape(None)[0]` raises IndexError.
Case 2 (`totalEdges` truthy): the literal count, doubled when undirected
(lines 300-304).  Case 3: `edgeNum = -1` (line 308). -/
def edgeNumOf (b : Brain) (edgePC : Option ℚ) (totalEdges : Option Int) :
    Except PyErr (Int × Option ℚ) :=
  match edgePC with
  | some p =>
    if p ≠ 0 then
      match b.adjMat with
      | none => .error .indexError
      | some M =>
        let n := M.length
        let c : ℚ := if b.uDirected then 1/2 else 1
        .ok (pyRound (p / 100 * (n : ℚ) * ((n : ℚ) - 1) * c), some p)
    else
      match totalEdges with
      | some k =>
        if k ≠ 0 then .ok ((if b.uDirected then k else 2 * k), b.edgePC)
        else .ok (-1, b.edgePC)
      | none => .ok (-1, b.edgePC)
  | none =>
    match totalEdges with
    | some k =>
      if k ≠ 0 then .ok ((if b.uDirected then k else 2 * k), b.edgePC)
      else .ok (-1, b.edgePC)
    | none => .ok (-1, b.edgePC)

/-- Stage 2 of `applyThreshold` (lines 311-336): for `edgeNum ≥ 0`, flatten
and sort the matrix, strip trailing NaNs, then take `weights[0]` when
`edgeNum > len(weights)` and `weights[-edgeNum]` otherwise; for negative
`edgeNum` the threshold is the absolute value `tVal`.  Calling
`None.flatten()` raises AttributeError. -/
def thresholdOf (b : Brain) (edgeNum : Int) (tVal : ℚ) :
    Except PyErr Entry :=
  if edgeNum ≥ 0 then
    match b.adjMat with
    | none => .error .attributeError
    | some M =>
      match stripTrailing (npSort M.flatten) with
      | .error e => .error e
      | .ok ws =>
        .ok (if edgeNum > (ws.length : Int) then ws.getD 0 none
             else pyGetNeg ws edgeNum.toNat)
  else .ok (some tVal)

/-- Embeds `brainObj.applyThreshold` (mayBrainTools.py lines 281-352).  The three
policies are resolved by `edgeNumOf`, the cutoff by `thresholdOf`, and the
realized pair list by `computeEdgeInds`.  Thresholding a brain with no
matrix loaded fails (for the absolute-value policy the failure surfaces as a
TypeError in the `fill_diagonal` fallback loop, lines 343-347). -/
def applyThreshold (b : Brain) (edgePC : Option ℚ) (totalEdges : Option Int)
    (tVal : ℚ) : Except PyErr Brain :=
  match edgeNumOf b edgePC totalEdges with
  | .error e => .error e
  | .ok (edgeNum, newEdgePC) =>
    match thresholdOf b edgeNum tVal with
    | .error e => .error e
    | .ok thr =>
      match b.adjMat with
      | none => .error .typeError
      | some M =>
        .ok { b with threshold := thr, edgePC := newEdgePC,
                     edgeInds := computeEdgeInds M thr }

/-- Ascending-sorted list of the matrix's finite entries: the sorted-selection
base described by the spec ("Flatten and sort the matrix's finite entries
ascending").  Used to compare the code's NaN-stripping pipeline against the
spec's wording. -/
def sortedFins (M : Mat) : List ℚ :=
  (M.flatten.filterMap id).insertionSort (· ≤ ·)

/-- The cutoff as the spec words it for the `totalEdges` policy: the entry at
position `len(weights) − edgeCount` of the ascending-sorted finite entries,
or the minimum finite entry when `edgeCount` exceeds their number. -/
def specCutoffTotal (M : Mat) (directed : Bool) (k : Int) : Option ℚ :=
  let ws := sortedFins M
  let ec : Int := if directed then k else 2 * k
  if ec > (ws.length : Int) then ws.min?
  else ws.get? (ws.length - ec.toNat)

/-- An `n × n` matrix of zeros, `zeros([n,n])` (line 589). -/
def zerosMat (n : Nat) : Mat :=
  List.replicate n (List.replicate n (some 0))

/-- Write value `v` at cell `(i, j)`; out-of-range writes are guarded by the
caller, matching numpy's IndexError being caught there. -/
def setEntry (M : Mat) (i j : Nat) (v : ℚ) : Mat :=
  M.set i ((M.getD i []).set j (some v))

/-- Embeds `brainObj.reconstructAdjMat` (lines 586-601): start from an `n × n` zero
matrix and, for every edge, write its weight at `[i,j]` and `[j,i]`.  An edge
with no weight attribute, or whose endpoints fall outside the matrix
(IndexError), is skipped by the bare `except`. -/
def reconstructAdjMat (g : BrainGraph) : Mat :=
  let n := g.nodes.length
  g.edges.foldl
    (fun M e =>
      match e.2.2 with
      | some w =>
        if e.1 < n && e.2.1 < n then setEntry (setEntry M e.1 e.2.1 w) e.2.1 e.1 w
        else M
      | none => M)
    (zerosMat n)

/-- Embeds `brainObj.updateAdjMat` (lines 603-611).  The body reads the edge weight
and then assigns to the bare name `adjMat` — not `self.adjMat`; no name
`adjMat` exists at module or local scope, so the assignment raises NameError,
which the bare `except` swallows after printing "no weight found ...".  Every
path through the method therefore leaves the brain unchanged. -/
def updateAdjMat (b : Brain) (edge : Nat × Nat) : Brain := b

/-- Embeds `brainObj.binarise` (lines 1273-1278): set the `weight` attribute of
every existing edge to the literal 1. -/
def binarise (g : BrainGraph) : BrainGraph :=
  { g with edges := g.edges.map (fun e => (e.1, e.2.1, some (1 : ℚ))) }

/-- networkx `add_nodes_from` on a one-element list: append the node id
unless it is already present. -/
def addNode (ns : List Nat) (u : Nat) : List Nat :=
  if u ∈ ns then ns else ns ++ [u]

/-- Embeds `brainObj.makeSubBrainIndList` (lines 524-551).  Node selection indexes
`self.G.nodes(data=True)[ind]` positionally (IndexError when out of range);
edges are kept when both endpoint ids are in `indices`, and re-added without
their data, so the sub-brain's edges carry no weight attribute and
`reconstructAdjMat` leaves its matrix all zeros.  The volume-transfer block
then misspells the local `subbrain` as `subBrain`: when a skull or an
isosurface volume is present the method raises NameError instead of
returning. -/
def makeSubBrainIndList (b : Brain) (indices : List Nat) : Except PyErr Brain :=
  if indices.all (· < b.G.nodes.length) then
    let selNodes := indices.foldl (fun ns i => addNode ns (b.G.nodes.getD i 0)) []
    let keptEdges :=
      (b.G.edges.filter (fun e => e.1 ∈ indices && e.2.1 ∈ indices)).map
        (fun e => (e.1, e.2.1, (none : Option ℚ)))
    let withEdgeNodes :=
      keptEdges.foldl (fun ns e => addNode (addNode ns e.1) e.2.1) selNodes
    let subG : BrainGraph := { nodes := withEdgeNodes, edges := keptEdges }
    let sub : Brain := { brainInit with G := subG, adjMat := some (reconstructAdjMat subG) }
    if b.skull then .error .nameError
    else if b.iso then .error .nameError
    else .ok sub
  else .error .indexError

/-- Embeds `brainObj.percentConnected` (lines 1261-1271).  The first statement reads
`self.directed`; `__init__` (line 57) defines only `self._directed` and no
code in the repository assigns `self.directed`, so on every brain the
repository builds the lookup raises AttributeError.  Were the attribute
present, the method would divide the edge count by `N(N-1)` (directed) or
`N(N-1)/2` (undirected, Python 2 floor division). -/
def percentConnected (b : Brain) : Except PyErr ℚ :=
  match b.directedAttr with
  | none => .error .attributeError
  | some d =>
    let n := b.G.nodes.length
    let total : Nat := if d then n * (n - 1) else n * (n - 1) / 2
    if total = 0 then .error .zeroDivisionError
    else .ok ((b.G.edges.length : ℚ) / (total : ℚ))

/-- Merge the components containing either endpoint of an edge. -/
def mergeComp (comps : List (List Nat)) (e : Nat × Nat × Option ℚ) :
    List (List Nat) :=
  let touching := comps.filter (fun c => e.1 ∈ c || e.2.1 ∈ c)
  let rest := comps.filter (fun c => !(e.1 ∈ c || e.2.1 ∈ c))
  touching.flatten :: rest

/-- Connected components of the graph, as used through
`networkx.components.connected.connected_component_subgraphs`. -/
def connComps (g : BrainGraph) : List (List Nat) :=
  g.edges.foldl mergeComp (g.nodes.map (fun u => [u]))

/-- Embeds `len(connected_component_subgraphs(G))`: the component count. -/
def nCC (g : BrainGraph) : Nat := (connComps g).length

/-- Embeds `brainObj.adjMatThresholding` (lines 355-384), the legacy routine that
`checkrobustnessNew` still calls.  With no matrix loaded it prints
"No adjacency matrix. Please load one." and returns the brain unchanged
(line 367-369).  With a matrix loaded it first clears every edge (line 373)
and then, with the default `rethreshold=False`, reaches the `else` branch at
lines 380-384 whose body reads the names `node1` and `node2`; neither is
defined in any enclosing scope, so the call raises NameError. -/
def adjMatThresholdingE (b : Brain) : Except PyErr Brain :=
  match b.adjMat with
  | none => .ok b
  | some _ => .error .nameError

/-- One bisection step of `checkrobustnessNew` (lines 1370-1420), on the
`edgePCBool=False` path: narrow whichever adjacent bracket differs in
component count, re-threshold at the new midpoint, and stop when all three
counts agree, when the bracket is narrower than `0.1^decs`, or after
`maxCounts` iterations.  `fuel` is the remaining iteration budget. -/
def robLoop (decs : Nat) (fuel : Nat) (b : Brain) (ths : List ℚ)
    (sg : List Nat) (count : Nat) : Except PyErr (Brain × List ℚ × Nat) :=
  match fuel with
  | 0 => .ok (b, ths, count)   -- count == maxCounts: "maximum iteration steps exceeded"
  | fuel + 1 =>
    let t0 := ths.getD 0 0; let t1 := ths.getD 1 0; let t2 := ths.getD 2 0
    let s0 := sg.getD 0 0; let s1 := sg.getD 1 0; let s2 := sg.getD 2 0
    if s0 ≠ s1 then
      match adjMatThresholdingE b with
      | .error e => .error e
      | .ok b' =>
        let ths' := [t0, (t0 + t1) / 2, t1]
        let sg' := [s0, nCC b'.G, s1]
        if |ths'.getD 2 0 - ths'.getD 1 0| < (1/10 : ℚ) ^ decs then
          .ok (b', ths', count + 1)
        else robLoop decs fuel b' ths' sg' (count + 1)
    else if s1 ≠ s2 then
      match adjMatThresholdingE b with
      | .error e => .error e
      | .ok b' =>
        let ths' := [t1, (t1 + t2) / 2, t2]
        let sg' := [s1, nCC b'.G, s2]
        if |ths'.getD 2 0 - ths'.getD 1 0| < (1/10 : ℚ) ^ decs then
          .ok (b', ths', count + 1)
        else robLoop decs fuel b' ths' sg' (count + 1)
    else .ok (b, ths, count + 1)

/-- Embeds `brainObj.checkrobustnessNew` (lines 1313-1438), `edgePCBool=False` path.
Candidates `[t0low, mean(threshold, t0low), threshold]` are sorted ascending;
each is applied through the legacy `adjMatThresholding` and the component
count recorded; if the counts at both ends coincide the function prints
"wrong boundaries for robustness checking" and returns `None`
(modelled as `.ok none`); otherwise the three-point bisection loop runs
(capped at 1000 iterations).  Afterwards the original threshold is restored
and re-applied, and `ths[2]` is returned (the source formats it to `decs`
decimals; formatting is presentation only and is not modelled).  Note the
dead `count == 1` diagnostic at line 1424 reads the undefined name `t0low0`;
and that whenever a matrix is loaded the very first `adjMatThresholding`
call raises NameError (see `adjMatThresholdingE`). -/
def checkrobustnessNewE (b : Brain) (decs : Nat) (t0low : ℚ) :
    Except PyErr (Option ℚ) :=
  let thr := b.threshold.getD 0
  let raw := [t0low, (thr + t0low) / 2, thr]
  let ths := raw.insertionSort (· ≤ ·)
  match adjMatThresholdingE b with
  | .error e => .error e
  | .ok b1 =>
    let s0 := nCC b1.G
    match adjMatThresholdingE b1 with
    | .error e => .error e
    | .ok b2 =>
      let s1 := nCC b2.G
      match adjMatThresholdingE b2 with
      | .error e => .error e
      | .ok b3 =>
        let s2 := nCC b3.G
        if s2 = s0 then .ok none
        else
          match robLoop decs 1000 b3 ths [s0, s1, s2] 0 with
          | .error e => .error e
          | .ok (b4, ths', count) =>
            if count = 1 then .error .nameError  -- line 1424 reads undefined t0low0
            else
              match adjMatThresholdingE b4 with  -- re-apply original threshold
              | .error e => .error e
              | .ok _ => .ok (some (ths'.getD 2 0))

/-- Mode of a highlight selection. -/
inductive HMode where
  | pe  -- both points and edges
  | p   -- points only
  | e   -- edges only
  deriving Repr, DecidableEq

/-- State of a `highlight` object (mayBrainTools.py lines 1478-1494). -/
structure Highlight where
  points : Option (List Nat)
  edges : Option (List (Nat × Nat))
  edgeIndices : List Nat
  mode : HMode
  deriving Repr, DecidableEq

/-- Python truthiness of an optional list: `None` and `[]` are falsy. -/
def truthyList {α : Type} : Option (List α) → Bool
  | some l => !l.isEmpty
  | none => false

/-- Embeds `highlight.__init__` (lines 1481-1494).  The third branch is
`elif self.mode:` — it reads the attribute `mode`, which has not been
assigned yet, so whenever `points` is falsy the constructor raises
AttributeError; in particular an edges-only highlight cannot be built.
(The evident intent was `elif self.edges: self.mode = 'e'`.) -/
def highlightInit (points : Option (List Nat))
    (edges : Option (List (Nat × Nat))) : Except PyErr Highlight :=
  if truthyList points && truthyList edges then
    .ok { points := points, edges := edges, edgeIndices := [], mode := .pe }
  else if truthyList points then
    .ok { points := points, edges := edges, edgeIndices := [], mode := .p }
  else .error .attributeError

/-- A graph as consumed by `plot_weight_distribution`, modelled from the
spec: the newer package's Brain wraps a networkx graph and a `directed`
boolean (`Modelled from the spec:` that Brain class is not under src/; only
its consumer `plotting/histograms.py` is). -/
structure HBrain where
  G : BrainGraph
  directed : Bool
  deriving Repr, DecidableEq

/-- Embeds `nx.to_numpy_matrix(G, nonedge=np.nan)`: dense matrix over the node ids
`0..n-1`, with the edge weight at `[i,j]` and `[j,i]` for an undirected edge
(weight defaulting to 1 when the attribute is absent) and NaN where no edge
exists. -/
def toNumpyMat (g : BrainGraph) : Mat :=
  let n := g.nodes.length
  (List.range n).map fun i =>
    (List.range n).map fun j =>
      match g.edges.find? (fun e => (e.1 = i && e.2.1 = j) || (e.1 = j && e.2.1 = i)) with
      | some e => some (e.2.2.getD 1)
      | none => none

/-- Embeds `plot_weight_distribution` (maybrain/plotting/histograms.py lines
14-55), up to the weight sample handed to `ax.hist`.  The strictly
upper-triangular entries are collected; for a directed brain the code then
calls `weights.extend(...)` — but `weights` is a numpy array, which has no
`extend` method, so the call raises AttributeError (and its argument is the
lower-triangular index pair array, not the entries).  For undirected input
the NaNs are dropped and the finite sample is returned. -/
def plotWeightSample (brain : HBrain) : Except PyErr (List ℚ) :=
  let arr := toNumpyMat brain.G
  let n := arr.length
  let upper := ((List.range n).flatMap fun i =>
    ((List.range n).filter (fun j => i < j)).map fun j => entry arr i j)
  if brain.directed then .error .attributeError
  else .ok (upper.filterMap id)

/-! ### Concrete inputs used by witnesses and counterexamples -/

/-- 2×2 matrix with self-weights on the diagonal, for the absolute-threshold
claim: the diagonal must be ignored even though `9 ≥ 2`. -/
def mC2 : Mat := [[some 9, some 2], [some 1, some 9]]

/-- Brain with `mC2` loaded. -/
def bC2 : Brain :=
  { brainInit with
    G := { nodes := [0, 1], edges := [] },
    adjMat := some mC2 }

/-- The brain `applyThreshold(tVal = 2)` produces from `bC2`. -/
def bC2res : Brain := { bC2 with threshold := some 2, edgeInds := [(0, 1)] }

/-- Symmetric 3-node matrix (NaN diagonal, pair weights 10, 20, 30) for the
percentage-policy counterexample. -/
def mC1 : Mat :=
  [[none, some 30, some 10], [some 30, none, some 20], [some 10, some 20, none]]

/-- Undirected brain with `mC1` loaded. -/
def bC1 : Brain :=
  { brainInit with
    G := { nodes := [0, 1, 2], edges := [] },
    adjMat := some mC1 }

/-- Asymmetric 2-node matrix with distinct finite entries, for the amended
percentage-policy witness. -/
def mC1w : Mat := [[none, some 5], [some 3, none]]

/-- Brain with `mC1w` loaded. -/
def bC1w : Brain :=
  { brainInit with
    G := { nodes := [0, 1], edges := [] },
    adjMat := some mC1w }

/-- 3-node matrix for the `totalEdges`-policy witness. -/
def mC3 : Mat :=
  [[none, some 6, some 5], [some 4, none, some 3], [some 2, some 1, none]]

/-- Brain with `mC3` loaded. -/
def bC3 : Brain :=
  { brainInit with
    G := { nodes := [0, 1, 2], edges := [] },
    adjMat := some mC3 }

/-- Complete undirected graph on 6 nodes (15 edges, weight 1). -/
def bK6 : Brain :=
  { brainInit with G :=
    { nodes := [0, 1, 2, 3, 4, 5],
      edges := [(0,1,some 1), (0,2,some 1), (0,3,some 1), (0,4,some 1), (0,5,some 1),
                (1,2,some 1), (1,3,some 1), (1,4,some 1), (1,5,some 1),
                (2,3,some 1), (2,4,some 1), (2,5,some 1),
                (3,4,some 1), (3,5,some 1), (4,5,some 1)] } }

/-- 6-node graph with no edges. -/
def bE6 : Brain := { brainInit with G := { nodes := [0, 1, 2, 3, 4, 5], edges := [] } }

/-- Brain with one weighted edge and an all-zero 2×2 matrix, the input on
which `updateAdjMat` should write weight 5 into the matrix. -/
def bC5 : Brain :=
  { brainInit with
    G := { nodes := [0, 1], edges := [(0, 1, some 5)] },
    adjMat := some (zerosMat 2) }

/-- Brain with a loaded 2×2 matrix, for the robustness-guard claim. -/
def bC8 : Brain :=
  { brainInit with
    G := { nodes := [0, 1], edges := [(0, 1, some 1)] },
    adjMat := some [[none, some 1], [some 1, none]] }

/-- Triangle brain for the sub-brain-by-indices witness. -/
def bC10 : Brain :=
  { brainInit with G :=
    { nodes := [0, 1, 2], edges := [(0,1,some 2), (1,2,some 3), (0,2,some 4)] } }

/-- Same brain with a skull volume present. -/
def bC10s : Brain := { bC10 with skull := true }

/-- 3-node undirected graph with edge weights 1 and 2 and one missing edge,
the spec's histogram example. -/
def hb3 : HBrain :=
  { G := { nodes := [0, 1, 2], edges := [(0, 1, some 1), (1, 2, some 2)] },
    directed := false }

/-- A directed 2-node brain, on which the histogram utility's directed
branch runs. -/
def hb2d : HBrain :=
  { G := { nodes := [0, 1], edges := [(0, 1, some 3)] }, directed := true }

/-! ### Helper lemmas -/

theorem entry_isSome_bounds {M : Mat} {i j : Nat}
    (h : (entry M i j).isSome) : i < M.length ∧ j < (M.getD i []).length := by
  constructor
  · by_contra hc
    push_neg at hc
    rw [entry, List.getD_eq_default _ _ hc] at h
    simp [List.getD] at h
  · by_contra hc
    push_neg at hc
    rw [entry, List.getD_eq_default _ _ hc] at h
    simp at h

theorem mem_computeEdgeInds {M : Mat} {t : Entry} {i j : Nat} :
    (i, j) ∈ computeEdgeInds M t ↔ i ≠ j ∧ geOpt (entry M i j) t = true := by
  constructor
  · intro hmem
    simp only [computeEdgeInds, List.mem_flatMap, List.mem_map, List.mem_filter,
      List.mem_range] at hmem
    obtain ⟨i', _, j', ⟨⟨_, hcond⟩, heq⟩⟩ := hmem
    rw [Prod.mk.injEq] at heq
    obtain ⟨rfl, rfl⟩ := heq
    simpa using hcond
  · rintro ⟨hij, hge⟩
    have hsome : (entry M i j).isSome := by
      cases h : entry M i j
      · rw [h] at hge; simp [geOpt] at hge
      · simp
    obtain ⟨hi, hj⟩ := entry_isSome_bounds hsome
    simp only [computeEdgeInds, List.mem_flatMap, List.mem_map, List.mem_filter,
      List.mem_range]
    exact ⟨i, hi, j, ⟨⟨hj, by simp [hij, hge]⟩, rfl⟩⟩

/-! ### Claim theorems -/

/-- C2: after `applyThreshold` with an absolute threshold `t`, the realized
pair list `edgeInds` contains `(i, j)` iff `i ≠ j` and `M[i,j] ≥ t` (NaN
entries compare false); in particular no self-loop is ever realized,
whatever the diagonal holds. -/
theorem applyThreshold_absolute_edge_iff (b : Brain) (M : Mat) (t : ℚ)
    (b' : Brain) (hM : b.adjMat = some M)
    (h : applyThreshold b none none t = .ok b') (i j : Nat) :
    ((i, j) ∈ b'.edgeInds ↔ i ≠ j ∧ geOpt (entry M i j) (some t) = true) := by
  have hb' : b' = { b with adjMat := some M, threshold := some t,
                           edgeInds := computeEdgeInds M (some t) } := by
    simp [applyThreshold, edgeNumOf, thresholdOf, hM,
      (show ¬((-1 : Int) ≥ 0) by decide)] at h
    exact h.symm
  subst hb'
  exact mem_computeEdgeInds

/-- Witness for C2 at the concrete brain `bC2` with threshold 2: the
diagonal cell (0,0) is excluded even though its entry 9 exceeds the
threshold. -/
theorem applyThreshold_absolute_edge_iff_witness :
    ((0, 0) ∈ bC2res.edgeInds ↔ 0 ≠ 0 ∧ geOpt (entry mC2 0 0) (some 2) = true) :=
  applyThreshold_absolute_edge_iff bC2 mC2 2 bC2res rfl (by decide) 0 0

/-- C4 (code bug): `percentConnected` reads `self.directed`, an attribute no
repository code ever assigns (`__init__` sets `self._directed`), so it
raises AttributeError on every brain instead of returning the connection
ratio — here evaluated on the complete undirected 6-node brain and on the
edgeless 6-node brain.  The last two conjuncts evaluate the remainder of the
method under the evidently intended attribute: the ratio would be 1 and 0
respectively. -/
theorem percentConnected_attributeError :
    percentConnected bK6 = .error .attributeError ∧
    percentConnected bE6 = .error .attributeError ∧
    percentConnected { bK6 with directedAttr := some false } = .ok 1 ∧
    percentConnected { bE6 with directedAttr := some false } = .ok 0 := by
  refine ⟨rfl, rfl, ?_, ?_⟩ <;> simp [percentConnected, bK6, bE6, brainInit]

/-- C5 (code bug): `updateAdjMat` assigns to the undefined bare name
`adjMat`; the NameError is swallowed by the bare `except`, so the stored
matrix is untouched — on `bC5` (edge (0,1) of weight 5 over a zero matrix)
the matrix stays all zeros, whereas the symmetric write the claim describes
(performed by `reconstructAdjMat`) would put 5 at `[0,1]` and `[1,0]`. -/
theorem updateAdjMat_noop :
    updateAdjMat bC5 (0, 1) = bC5 ∧
    (updateAdjMat bC5 (0, 1)).adjMat ≠ some [[some 0, some 5], [some 5, some 0]] ∧
    reconstructAdjMat bC5.G = [[some 0, some 5], [some 5, some 0]] := by
  refine ⟨rfl, by decide, by decide⟩

/-- C6 (code bug): the highlight constructor derives mode 'pe' and 'p'
correctly, but its third branch reads the not-yet-assigned attribute
`self.mode` (a typo for `self.edges`), so an edges-only highlight raises
AttributeError instead of being built with the edges-only mode. -/
theorem highlightInit_modes :
    highlightInit (some [0, 1]) (some [(0, 1)]) =
      .ok { points := some [0, 1], edges := some [(0, 1)],
            edgeIndices := [], mode := .pe } ∧
    highlightInit (some [0, 1]) none =
      .ok { points := some [0, 1], edges := none,
            edgeIndices := [], mode := .p } ∧
    highlightInit none (some [(0, 1)]) = .error .attributeError := by
  refine ⟨rfl, rfl, rfl⟩

/-- C7 (code bug): on the spec's 3-node undirected example the histogram
weight sample is exactly the finite values 1 and 2; but for a directed brain
the code calls `extend` on a numpy array (and passes index arrays rather
than entries), raising AttributeError instead of adding the
lower-triangular entries. -/
theorem plotWeightSample_eval :
    plotWeightSample hb3 = .ok [1, 2] ∧
    plotWeightSample hb2d = .error .attributeError := by
  refine ⟨by decide, rfl⟩

/-- C8 (code bug): whenever a matrix is loaded, `checkrobustnessNew` raises
NameError inside the first call to the legacy `adjMatThresholding` (whose
body reads the undefined names `node1`/`node2`), before any component count
is computed — the invalid-boundary diagnostic and abort the claim describes
are unreachable. -/
theorem checkrobustnessNew_nameError (b : Brain) (M : Mat) (decs : Nat)
    (t0low : ℚ) (hM : b.adjMat = some M) :
    checkrobustnessNewE b decs t0low = .error .nameError := by
  simp [checkrobustnessNewE, adjMatThresholdingE, hM]

/-- Witness for C8: the concrete loaded brain `bC8`. -/
theorem checkrobustnessNew_nameError_witness :
    checkrobustnessNewE bC8 1 (-1) = .error .nameError :=
  checkrobustnessNew_nameError bC8 [[none, some 1], [some 1, none]] 1 (-1) rfl

/-- C9: `binarise` keeps the node list and the edge list (same endpoint
pairs, same count) and sets every edge weight to 1. -/
theorem binarise_spec (g : BrainGraph) :
    (binarise g).nodes = g.nodes ∧
    (binarise g).edges.map (fun e => (e.1, e.2.1)) =
      g.edges.map (fun e => (e.1, e.2.1)) ∧
    (binarise g).edges.length = g.edges.length ∧
    ∀ e ∈ (binarise g).edges, e.2.2 = some 1 := by
  refine ⟨rfl, ?_, by simp [binarise], ?_⟩
  · show (g.edges.map _).map _ = _
    rw [List.map_map]
    rfl
  · intro e he
    simp only [binarise, List.mem_map] at he
    obtain ⟨a, _, rfl⟩ := he
    rfl

theorem addNode_of_mem {ns : List Nat} {u : Nat} (h : u ∈ ns) :
    addNode ns u = ns := by
  simp [addNode, h]

theorem addNode_of_not_mem {ns : List Nat} {u : Nat} (h : u ∉ ns) :
    addNode ns u = ns ++ [u] := by
  simp [addNode, h]

theorem foldl_addNode_of_nodup (l : List Nat) (acc : List Nat)
    (hnd : l.Nodup) (hdisj : ∀ x ∈ l, x ∉ acc) :
    l.foldl addNode acc = acc ++ l := by
  induction l generalizing acc with
  | nil => simp
  | cons x t ih =>
    have hx : x ∉ acc := hdisj x (by simp)
    rw [List.foldl_cons, addNode_of_not_mem hx,
      ih (acc ++ [x]) (List.nodup_cons.mp hnd).2]
    · simp
    · intro y hy
      simp only [List.mem_append, List.mem_singleton]
      rintro (h | rfl)
      · exact hdisj y (List.mem_cons_of_mem _ hy) h
      · exact (List.nodup_cons.mp hnd).1 hy

theorem foldl_addNode_edges (es : List (Nat × Nat × Option ℚ)) (ns : List Nat)
    (h : ∀ e ∈ es, e.1 ∈ ns ∧ e.2.1 ∈ ns) :
    es.foldl (fun ns e => addNode (addNode ns e.1) e.2.1) ns = ns := by
  induction es with
  | nil => rfl
  | cons e t ih =>
    obtain ⟨h1, h2⟩ := h e (by simp)
    simp only [List.foldl_cons, addNode_of_mem h1, addNode_of_mem h2]
    exact ih (fun e' he' => h e' (List.mem_cons_of_mem _ he'))

/-- C10: `makeSubBrainIndList` returns a sub-brain with exactly the nodes at
the given indices and the parent edges with both endpoints among them — but
only when neither a skull nor an isosurface volume is loaded; with either
volume present the misspelled `subBrain` in the transfer block raises
NameError instead of returning. -/
theorem makeSubBrainIndList_spec (b : Brain) (n : Nat) (indices : List Nat)
    (hn : b.G.nodes = List.range n) (hnd : indices.Nodup)
    (hlt : ∀ i ∈ indices, i < n) :
    (b.skull = false → b.iso = false →
      ∃ sub, makeSubBrainIndList b indices = .ok sub ∧
        sub.G.nodes = indices ∧
        sub.G.edges.map (fun e => (e.1, e.2.1)) =
          (b.G.edges.filter (fun e => e.1 ∈ indices && e.2.1 ∈ indices)).map
            (fun e => (e.1, e.2.1))) ∧
    (b.skull = true ∨ b.iso = true →
      makeSubBrainIndList b indices = .error .nameError) := by
  have hall : indices.all (· < b.G.nodes.length) = true := by
    rw [List.all_eq_true]
    intro i hi
    rw [hn, List.length_range]
    simpa using hlt i hi
  have hsel : indices.foldl (fun ns i => addNode ns (b.G.nodes.getD i 0)) []
      = indices := by
    have hext : indices.foldl (fun ns i => addNode ns (b.G.nodes.getD i 0)) []
        = indices.foldl addNode [] := by
      apply List.foldl_ext
      intro acc i hi
      rw [hn]
      have : (List.range n).getD i 0 = i := by
        rw [List.getD_eq_getElem?_getD, List.getElem?_range (hlt i hi)]
        rfl
      rw [this]
    rw [hext, foldl_addNode_of_nodup indices [] hnd (by simp), List.nil_append]
  have hkept : ∀ e ∈ (b.G.edges.filter
      (fun e => e.1 ∈ indices && e.2.1 ∈ indices)).map
        (fun e => (e.1, e.2.1, (none : Option ℚ))),
      e.1 ∈ indices ∧ e.2.1 ∈ indices := by
    intro e he
    simp only [List.mem_map, List.mem_filter] at he
    obtain ⟨a, ⟨_, ha⟩, rfl⟩ := he
    simpa using ha
  constructor
  · intro hsk hiso
    simp only [makeSubBrainIndList, hall, if_true, hsk, hiso,
      Bool.false_eq_true, if_false]
    refine ⟨_, rfl, ?_, ?_⟩
    · show List.foldl _ (List.foldl _ [] indices) _ = indices
      rw [hsel]
      exact foldl_addNode_edges _ _ hkept
    · show List.map _ (List.map _ _) = _
      rw [List.map_map]
      rfl
  · intro hvol
    rcases hvol with hsk | hiso
    · simp only [makeSubBrainIndList, hall, if_true, hsk]
    · cases hskull : b.skull
      · simp only [makeSubBrainIndList, hall, if_true, hskull, hiso,
          Bool.false_eq_true, if_false]
      · simp only [makeSubBrainIndList, hall, if_true, hskull]

/-- Witness for C10 on the triangle brain: indices `[0, 1]` give the
sub-brain with nodes 0, 1 and the single edge (0, 1); with a skull volume
present the same call fails with NameError. -/
theorem makeSubBrainIndList_spec_witness :
    (∃ sub, makeSubBrainIndList bC10 [0, 1] = .ok sub ∧
      sub.G.nodes = [0, 1] ∧
      sub.G.edges.map (fun e => (e.1, e.2.1)) =
        (bC10.G.edges.filter (fun e => e.1 ∈ [0, 1] && e.2.1 ∈ [0, 1])).map
          (fun e => (e.1, e.2.1))) ∧
    makeSubBrainIndList bC10s [0, 1] = .error .nameError :=
  ⟨(makeSubBrainIndList_spec bC10 3 [0, 1] (by decide) (by decide)
      (by decide)).1 rfl rfl,
   (makeSubBrainIndList_spec bC10s 3 [0, 1] (by decide) (by decide)
      (by decide)).2 (Or.inl rfl)⟩

theorem sorted_optLeP_decomp : ∀ (s : List Entry), List.Sorted optLeP s →
    s = (s.filterMap id).map some ++
        List.replicate (s.length - (s.filterMap id).length) none
  | [], _ => rfl
  | some v :: t, hs => by
    have ih := sorted_optLeP_decomp t hs.of_cons
    have hfm : (some v :: t).filterMap id = v :: t.filterMap id := by
      simp [List.filterMap_cons]
    rw [hfm]
    simp only [List.map_cons, List.cons_append, List.length_cons,
      Nat.succ_sub_succ]
    exact congrArg (some v :: ·) ih
  | none :: t, hs => by
    have hall : ∀ x ∈ t, x = (none : Entry) := by
      intro x hx
      have hle := List.rel_of_sorted_cons hs x hx
      cases x with
      | none => rfl
      | some y => simp [optLeP, optLe] at hle
    have ht : t = List.replicate t.length none := List.eq_replicate_of_mem hall
    have hfm : (none :: t).filterMap id = [] := by
      rw [List.filterMap_eq_nil_iff]
      intro a ha
      rcases List.mem_cons.mp ha with rfl | ha'
      · rfl
      · rw [hall a ha']; rfl
    rw [hfm]
    simp only [List.map_nil, List.nil_append, List.length_cons,
      List.length_nil, Nat.sub_zero, List.replicate_succ]
    exact congrArg (none :: ·) ht

theorem stripAux_replicate_append (m : Nat) (r : List Entry) :
    stripAux (List.replicate m none ++ r) = stripAux r := by
  induction m with
  | zero => rfl
  | succ m ih =>
    rw [List.replicate_succ, List.cons_append]
    show stripAux (List.replicate m none ++ r) = stripAux r
    exact ih

theorem stripTrailing_map_some_append (vs : List ℚ) (m : Nat) (hne : vs ≠ []) :
    stripTrailing (vs.map some ++ List.replicate m none) = .ok (vs.map some) := by
  obtain ⟨L, v, rfl⟩ : ∃ L v, vs = L ++ [v] := by
    rcases List.eq_nil_or_concat vs with h | ⟨L, v, h⟩
    · exact absurd h hne
    · exact ⟨L, v, by simpa [List.concat_eq_append] using h⟩
  rw [stripTrailing, List.reverse_append, List.reverse_replicate,
    stripAux_replicate_append,
    show ((L ++ [v]).map some).reverse = some v :: (L.map some).reverse by simp]
  show (Except.ok (some v :: (L.map some).reverse)).map List.reverse = _
  simp [Except.map]

theorem npSort_filterMap (fl : List Entry) :
    (npSort fl).filterMap id = (fl.filterMap id).insertionSort (· ≤ ·) := by
  have hperm : List.Perm ((npSort fl).filterMap id) (fl.filterMap id) :=
    (List.perm_insertionSort optLeP fl).filterMap id
  have hs : List.Sorted optLeP (npSort fl) := List.sorted_insertionSort optLeP fl
  have hdec := sorted_optLeP_decomp (npSort fl) hs
  have hsvs : List.Sorted (· ≤ ·) ((npSort fl).filterMap id) := by
    have hsub : List.Sorted optLeP (((npSort fl).filterMap id).map some) := by
      rw [hdec] at hs
      exact hs.sublist (List.sublist_append_left _ _)
    rw [List.Sorted, List.pairwise_map] at hsub
    exact hsub.imp (fun h => by simpa [optLeP, optLe] using h)
  have hsrt : List.Sorted (· ≤ ·) ((fl.filterMap id).insertionSort (· ≤ ·)) :=
    List.sorted_insertionSort _ _
  exact List.eq_of_perm_of_sorted
    (hperm.trans (List.perm_insertionSort _ _).symm) hsvs hsrt

theorem stripTrailing_npSort (fl : List Entry) (hne : fl.filterMap id ≠ []) :
    stripTrailing (npSort fl) =
      .ok (((fl.filterMap id).insertionSort (· ≤ ·)).map some) := by
  have hdec := sorted_optLeP_decomp (npSort fl)
    (List.sorted_insertionSort optLeP fl)
  rw [npSort_filterMap] at hdec
  rw [hdec]
  apply stripTrailing_map_some_append
  intro hnil
  apply hne
  have hp := List.perm_insertionSort (α := ℚ) (· ≤ ·) (fl.filterMap id)
  rw [hnil] at hp
  exact (hp.symm).eq_nil

theorem getD_map_some (vs : List ℚ) (i : Nat) :
    (vs.map some).getD i none = vs.get? i := by
  rw [List.getD_eq_getElem?_getD, List.getElem?_map, List.get?_eq_getElem?]
  cases vs[i]? <;> rfl

theorem foldl_min_of_le (t : List ℚ) (a : ℚ) (h : ∀ x ∈ t, a ≤ x) :
    t.foldl min a = a := by
  induction t generalizing a with
  | nil => rfl
  | cons x t ih =>
    simp only [List.foldl_cons]
    rw [min_eq_left (h x (by simp))]
    exact ih a (fun y hy => h y (by simp [hy]))

theorem sorted_min_eq_head (l : List ℚ) (hs : List.Sorted (· ≤ ·) l) :
    l.min? = l.head? := by
  cases l with
  | nil => rfl
  | cons a t =>
    haveI : Std.Antisymm (fun (x y : ℚ) => x ≤ y) :=
      ⟨fun {_ _} h h' => le_antisymm h h'⟩
    rw [List.head?_cons, List.min?_eq_some_iff (fun a => le_refl a)
      (fun a b => min_choice a b) (fun a b c => le_min_iff)]
    refine ⟨List.mem_cons_self a t, fun b hb => ?_⟩
    rcases List.mem_cons.mp hb with rfl | hb'
    · exact le_refl b
    · exact List.rel_of_sorted_cons hs b hb'

theorem getD_map_some_zero (vs : List ℚ) :
    (vs.map some).getD 0 none = vs.head? := by
  cases vs <;> rfl

/-- C3: with a fixed edge count `k ≥ 1` (and at least one finite matrix
entry), `applyThreshold(totalEdges = k)` doubles the count for undirected
brains, keeps it for directed ones, and stores as threshold the entry at
position `len(weights) − edgeCount` of the ascending-sorted finite entries —
or the minimum finite entry when the count exceeds their number
(`specCutoffTotal` words the selection exactly as the spec does). -/
theorem applyThreshold_totalEdges_cutoff (b : Brain) (M : Mat) (k : Int)
    (tVal : ℚ) (hM : b.adjMat = some M) (hk : 1 ≤ k)
    (hfin : M.flatten.filterMap id ≠ []) :
    ∃ b', applyThreshold b none (some k) tVal = .ok b' ∧
      b'.threshold = specCutoffTotal M b.uDirected k := by
  have hk0 : ¬(k = 0) := by omega
  have h1 : edgeNumOf b none (some k) =
      .ok ((if b.uDirected then k else 2 * k), b.edgePC) := by
    simp [edgeNumOf, hk0]
  have hws := stripTrailing_npSort M.flatten hfin
  have h2 : thresholdOf b (if b.uDirected then k else 2 * k) tVal =
      .ok (specCutoffTotal M b.uDirected k) := by
    have hge : (if b.uDirected then k else 2 * k) ≥ 0 := by split <;> omega
    simp only [thresholdOf, hge, if_true, hM, hws, specCutoffTotal, sortedFins]
    set ec : Int := if b.uDirected then k else 2 * k with hecdef
    have hec1 : 1 ≤ ec := by rw [hecdef]; split <;> omega
    set vst := (M.flatten.filterMap id).insertionSort (· ≤ ·) with hvstdef
    have hsrt : List.Sorted (· ≤ ·) vst := by
      rw [hvstdef]; exact List.sorted_insertionSort _ _
    rw [List.length_map]
    by_cases hgt : ec > (vst.length : Int)
    · rw [if_pos hgt, if_pos hgt, getD_map_some_zero,
        sorted_min_eq_head vst hsrt]
    · rw [if_neg hgt, if_neg hgt, pyGetNeg,
        if_neg (by omega : ¬(ec.toNat = 0)), List.length_map, getD_map_some]
  refine ⟨{ b with
            adjMat := some M,
            threshold := specCutoffTotal M b.uDirected k,
            edgeInds := computeEdgeInds M (specCutoffTotal M b.uDirected k) },
          ?_, rfl⟩
  simp only [applyThreshold, h1, h2, hM]

/-- Witness for C3 on `bC3` (undirected, entries 1..6, NaN diagonal) with
`totalEdges = 2`: the effective count is 4 and the stored cutoff is the
4th-largest finite entry, 3. -/
theorem applyThreshold_totalEdges_cutoff_witness :
    (∃ b', applyThreshold bC3 none (some 2) (-2) = .ok b' ∧
      b'.threshold = specCutoffTotal mC3 false 2) ∧
    specCutoffTotal mC3 false 2 = some 3 :=
  ⟨applyThreshold_totalEdges_cutoff bC3 mC3 2 (-2) rfl (by decide) (by decide),
   by decide⟩

theorem map_eq_range_getD {α β : Type} (d : α) (f : α → β) :
    ∀ (l : List α),
      l.map f = (List.range l.length).map (fun i => f (l.getD i d))
  | [] => rfl
  | a :: t => by
    rw [List.length_cons, List.map_cons, List.range_succ_eq_map, List.map_cons,
      List.map_map]
    exact congrArg (f a :: ·) (map_eq_range_getD d f t)

theorem countRange (l : List Entry) (P : Entry → Bool) :
    ((List.range l.length).filter (fun j => P (l.getD j none))).length =
      l.countP P := by
  induction l with
  | nil => rfl
  | cons a t ih =>
    have hfm : List.filter (fun j => P ((a :: t).getD j none))
        ((List.range t.length).map Nat.succ) =
        (List.filter (fun j => P (t.getD j none)) (List.range t.length)).map
          Nat.succ := by
      rw [List.filter_map]
      rfl
    have h0 : ((a :: t).getD 0 none) = a := rfl
    rw [List.length_cons, List.range_succ_eq_map, List.filter_cons, h0, hfm,
      List.countP_cons]
    by_cases hPa : P a = true
    · rw [if_pos hPa, if_pos hPa, List.length_cons, List.length_map, ih]
    · rw [if_neg hPa, if_neg hPa, List.length_map, ih]
      omega

theorem length_computeEdgeInds (M : Mat) (t : Entry)
    (hdiag : ∀ i, geOpt (entry M i i) t = false) :
    (computeEdgeInds M t).length = M.flatten.countP (fun a => geOpt a t) := by
  rw [computeEdgeInds, List.length_flatMap, List.countP_flatten,
    map_eq_range_getD ([] : List Entry) (List.countP (fun a => geOpt a t)) M]
  congr 1
  apply List.map_congr_left
  intro i _
  simp only [Function.comp_apply]
  rw [List.length_map]
  have hcong : List.filter (fun j => i ≠ j && geOpt (entry M i j) t)
      (List.range (M.getD i []).length) =
      List.filter (fun j => geOpt ((M.getD i []).getD j none) t)
      (List.range (M.getD i []).length) := by
    apply List.filter_congr
    intro j _
    by_cases hij : i = j
    · subst hij
      have hd := hdiag i
      simp only [entry] at hd
      rw [hd, show (decide (i ≠ i)) = false by simp, Bool.false_and]
    · simp [entry, hij]
  rw [hcong]
  exact countRange (M.getD i []) (fun a => geOpt a t)

theorem countP_ge_cutoff (vs : List ℚ) (hs : List.Sorted (· ≤ ·) vs)
    (hnd : vs.Nodup) (k : Nat) (hk1 : 1 ≤ k) (hk2 : k ≤ vs.length) :
    vs.countP (fun v => decide (v ≥ vs.getD (vs.length - k) 0)) = k := by
  have hlt : List.Sorted (· < ·) vs := hs.lt_of_le hnd
  have hi0 : vs.length - k < vs.length := by omega
  set i0 := vs.length - k with hi0def
  set cv := vs.getD i0 0 with hcvdef
  have hcv : cv = vs[i0] := by
    rw [hcvdef, List.getD_eq_getElem?_getD, List.getElem?_eq_getElem hi0]
    rfl
  have hdropcons : vs.drop i0 = vs[i0] :: vs.drop (i0 + 1) :=
    List.drop_eq_getElem_cons hi0
  have hsplit : vs = vs.take i0 ++ vs.drop i0 :=
    (List.take_append_drop i0 vs).symm
  have hcvdrop : cv ∈ vs.drop i0 := by
    rw [hdropcons, hcv]
    exact List.mem_cons_self _ _
  have hcross : ∀ x ∈ vs.take i0, ∀ y ∈ vs.drop i0, x < y := by
    have hlt' := hlt
    rw [hsplit] at hlt'
    exact (List.pairwise_append.mp hlt').2.2
  have htake0 : (vs.take i0).countP (fun v => decide (v ≥ cv)) = 0 := by
    rw [List.countP_eq_zero]
    intro x hx
    have hxc := hcross x hx cv hcvdrop
    simp only [decide_eq_true_eq, ge_iff_le]
    exact not_le.mpr hxc
  have hdroplen : (vs.drop i0).length = k := by
    rw [List.length_drop]
    omega
  have hdropall : (vs.drop i0).countP (fun v => decide (v ≥ cv)) =
      (vs.drop i0).length := by
    rw [List.countP_eq_length]
    intro y hy
    have hsd : List.Sorted (· ≤ ·) (vs.drop i0) :=
      hs.sublist (List.drop_sublist i0 vs)
    rw [hdropcons] at hy hsd
    rcases List.mem_cons.mp hy with rfl | hy'
    · simp [hcv]
    · have := List.rel_of_sorted_cons hsd y hy'
      rw [hcv]
      simpa using this
  calc vs.countP (fun v => decide (v ≥ cv))
      = (vs.take i0 ++ vs.drop i0).countP (fun v => decide (v ≥ cv)) := by
        rw [← hsplit]
    _ = (vs.take i0).countP (fun v => decide (v ≥ cv)) +
        (vs.drop i0).countP (fun v => decide (v ≥ cv)) :=
        List.countP_append _ _ _
    _ = 0 + k := by rw [htake0, hdropall, hdroplen]
    _ = k := by omega

/-- C1 (amended): for a loaded matrix with NaN diagonal and pairwise
distinct finite entries, `applyThreshold(edgePercent = p)` realizes exactly
`edgeNum` entries in `edgeIndices`, where
`edgeNum = round(p/100 · N · (N−1) · c)` with `c = 0.5` when the brain is
DIRECTED and `c = 1` when it is undirected (an undirected pair appears in
`edgeIndices` in both orientations), provided `1 ≤ edgeNum ≤` the number of
finite entries. -/
theorem applyThreshold_edgePC_count (b : Brain) (M : Mat) (p : ℚ) (tVal : ℚ)
    (n : Nat) (eN : Int) (hM : b.adjMat = some M) (hp : p ≠ 0)
    (hrows : M.length = n)
    (hdiag : ∀ i, i < n → entry M i i = none)
    (hnd : (M.flatten.filterMap id).Nodup)
    (heN : eN = pyRound (p / 100 * (n : ℚ) * ((n : ℚ) - 1) *
      (if b.uDirected then (1 : ℚ)/2 else 1)))
    (h1 : 1 ≤ eN) (h2 : eN ≤ ((M.flatten.filterMap id).length : Int)) :
    ∃ b', applyThreshold b (some p) none tVal = .ok b' ∧
      (b'.edgeInds.length : Int) = eN := by
  have hfin : M.flatten.filterMap id ≠ [] := by
    intro hnil
    rw [hnil] at h2
    simp at h2
    omega
  have h1' : edgeNumOf b (some p) none = .ok (eN, some p) := by
    rw [heN, ← hrows]
    simp [edgeNumOf, hp, hM]
  have hws := stripTrailing_npSort M.flatten hfin
  have hvlen : ((M.flatten.filterMap id).insertionSort (· ≤ ·)).length =
      (M.flatten.filterMap id).length :=
    (List.perm_insertionSort _ _).length_eq
  have hnotgt : ¬(eN >
      (((((M.flatten.filterMap id).insertionSort (· ≤ ·)).map some).length : Nat) : Int)) := by
    rw [List.length_map, hvlen]
    omega
  have h2' : thresholdOf b eN tVal = .ok (pyGetNeg
      (((M.flatten.filterMap id).insertionSort (· ≤ ·)).map some)
      eN.toNat) := by
    simp only [thresholdOf, (by omega : eN ≥ 0), if_true, hM, hws]
    rw [if_neg hnotgt]
  have hidx : ((M.flatten.filterMap id).insertionSort (· ≤ ·)).length -
      eN.toNat < ((M.flatten.filterMap id).insertionSort (· ≤ ·)).length := by
    rw [hvlen]
    omega
  have hthr : pyGetNeg
      (((M.flatten.filterMap id).insertionSort (· ≤ ·)).map some) eN.toNat =
      some (((M.flatten.filterMap id).insertionSort (· ≤ ·)).getD
        (((M.flatten.filterMap id).insertionSort (· ≤ ·)).length -
          eN.toNat) 0) := by
    rw [pyGetNeg, if_neg (by omega : ¬(eN.toNat = 0)), List.length_map,
      getD_map_some, List.get?_eq_getElem?, List.getD_eq_getElem?_getD,
      List.getElem?_eq_getElem hidx]
    rfl
  have hsrt : List.Sorted (· ≤ ·)
      ((M.flatten.filterMap id).insertionSort (· ≤ ·)) :=
    List.sorted_insertionSort _ _
  have hvnd : ((M.flatten.filterMap id).insertionSort (· ≤ ·)).Nodup :=
    (List.perm_insertionSort _ _).nodup_iff.mpr hnd
  have hcount := countP_ge_cutoff _ hsrt hvnd eN.toNat (by omega)
    (by rw [hvlen]; omega)
  have hdiag' : ∀ i, geOpt (entry M i i)
      (some (((M.flatten.filterMap id).insertionSort (· ≤ ·)).getD
        (((M.flatten.filterMap id).insertionSort (· ≤ ·)).length -
          eN.toNat) 0)) = false := by
    intro i
    by_cases hi : i < n
    · rw [hdiag i hi]
      rfl
    · rw [entry, List.getD_eq_default _ _ (by omega : M.length ≤ i)]
      rfl
  refine ⟨{ b with
            adjMat := some M,
            threshold := some (((M.flatten.filterMap id).insertionSort (· ≤ ·)).getD
              (((M.flatten.filterMap id).insertionSort (· ≤ ·)).length -
                eN.toNat) 0),
            edgePC := some p,
            edgeInds := computeEdgeInds M
              (some (((M.flatten.filterMap id).insertionSort (· ≤ ·)).getD
                (((M.flatten.filterMap id).insertionSort (· ≤ ·)).length -
                  eN.toNat) 0)) }, ?_, ?_⟩
  · simp only [applyThreshold, h1', h2', hthr, hM]
  · show ((computeEdgeInds M _).length : Int) = eN
    rw [length_computeEdgeInds M _ hdiag']
    have hperm : M.flatten.countP (fun a => geOpt a
        (some (((M.flatten.filterMap id).insertionSort (· ≤ ·)).getD
          (((M.flatten.filterMap id).insertionSort (· ≤ ·)).length -
            eN.toNat) 0))) =
        (npSort M.flatten).countP (fun a => geOpt a
        (some (((M.flatten.filterMap id).insertionSort (· ≤ ·)).getD
          (((M.flatten.filterMap id).insertionSort (· ≤ ·)).length -
            eN.toNat) 0))) :=
      ((List.perm_insertionSort optLeP M.flatten).countP_eq _).symm
    rw [hperm]
    have hdec := sorted_optLeP_decomp (npSort M.flatten)
      (List.sorted_insertionSort optLeP M.flatten)
    rw [npSort_filterMap] at hdec
    rw [hdec, List.countP_append, List.countP_map]
    have hrep : (List.replicate ((npSort M.flatten).length -
        ((M.flatten.filterMap id).insertionSort (· ≤ ·)).length)
          (none : Entry)).countP (fun a => geOpt a
        (some (((M.flatten.filterMap id).insertionSort (· ≤ ·)).getD
          (((M.flatten.filterMap id).insertionSort (· ≤ ·)).length -
            eN.toNat) 0))) = 0 := by
      rw [List.countP_eq_zero]
      intro a ha
      rw [List.eq_of_mem_replicate ha]
      simp [geOpt]
    rw [hrep]
    have hfinal : ((M.flatten.filterMap id).insertionSort (· ≤ ·)).countP
        ((fun a => geOpt a
          (some (((M.flatten.filterMap id).insertionSort (· ≤ ·)).getD
            (((M.flatten.filterMap id).insertionSort (· ≤ ·)).length -
              eN.toNat) 0))) ∘ some) = eN.toNat := hcount
    rw [hfinal]
    omega

/-- Witness for the amended C1 on `bC1w` (undirected, 2 nodes, distinct
finite entries, NaN diagonal) with `p = 50`: edgeNum = round(50/100·2·1·1)
= 1 and exactly one entry of `edgeIndices` is realized. -/
theorem applyThreshold_edgePC_count_witness :
    ∃ b', applyThreshold bC1w (some 50) none (-2) = .ok b' ∧
      (b'.edgeInds.length : Int) = 1 :=
  applyThreshold_edgePC_count bC1w mC1w 50 (-2) 2 1 rfl (by norm_num)
    (by decide) (by decide) (by decide)
    (by norm_num [pyRound, bC1w, brainInit]) (by decide) (by decide)

/-- C1 counterexample: on the undirected brain `bC1` (symmetric 3-node
matrix, pair weights 10/20/30, NaN diagonal) with `edgePercent = 125/3`,
the claim predicts `round(p/100·N·(N−1)·0.5) = 1` realized pair, but the
code realizes the four entries (0,1),(1,0),(1,2),(2,1) — two distinct
unordered pairs — so the claim fails whether `edgeIndices` entries or
unordered pairs are counted. -/
theorem applyThreshold_edgePC_claim_false :
    (applyThreshold bC1 (some (125/3)) none (-2)).map (fun b => b.edgeInds) =
      .ok [(0, 1), (1, 0), (1, 2), (2, 1)] ∧
    pyRound ((125/3 : ℚ) / 100 * 3 * (3 - 1) * (1/2)) = 1 ∧
    ¬((([(0, 1), (1, 0), (1, 2), (2, 1)] : List (Nat × Nat)).length : Int)
        = 1) ∧
    ¬(((([(0, 1), (1, 0), (1, 2), (2, 1)] : List (Nat × Nat)).filter
        (fun e => e.1 < e.2)).length : Int) = 1) := by
  have hp : (125/3 : ℚ) ≠ 0 := by norm_num
  have h1 : edgeNumOf bC1 (some (125/3)) none = .ok (3, some (125/3)) := by
    simp only [edgeNumOf, hp, if_true, bC1, brainInit]
    norm_num [pyRound, mC1]
  have h2 : thresholdOf bC1 3 (-2) = .ok (some 20) := by decide
  refine ⟨?_, ?_, by decide, by decide⟩
  · simp only [applyThreshold, h1, h2,
      (show bC1.adjMat = some mC1 from rfl)]
    show Except.ok _ = _
    rw [Except.ok.injEq]
    decide
  · norm_num [pyRound]
